import Mathlib

/-!
Shallow embedding of the query-processing pipeline of the
`hexaware-rag-document-assistant` repository.

Translated modules:
* `src/services/guardrails.py`   — `QueryGuardrails`
* `src/core/cache_manager.py`    — `SimpleCacheManager`
* `src/core/reranker.py`         — `SimpleReranker`
* `src/services/retrieval_service.py` — `RagRetrievalService`

Modelling conventions:
* Python strings are Lean `String`; character-level work is done on the
  underlying `List Char`.
* Python `re` word-boundary patterns (all of the form `\b(w1|w2|...)\b` over
  words made of word characters) are modelled by an explicit bounded-substring
  search with word characters `[A-Za-z0-9_]` (ASCII fragment of `\w`).
* `time.time()` is modelled by an explicit `now : Nat` argument threaded into
  the cache operations; `datetime.utcnow().isoformat()` by explicit timestamp
  string arguments to the session update.
* Relevance scores (Python floats) are modelled as `Int`; no claim depends on
  score arithmetic, only on orderings and fallback paths.
* The float comparison `len(optimizedQuery) < len(query) * 0.3` in
  `optimize_query` is modelled exactly as the rational comparison
  `10 * len(optimizedQuery) < 3 * len(query)`.
* `hashlib.md5` in `SimpleCacheManager._get_key` is collision-acceptable by
  design; the key is modelled as the pre-hash content string itself
  (`query.lower().strip() + "_" + search_mode`), which identifies exactly the
  same pairs except for md5 collisions.
* The external collaborators (Elasticsearch client, Ollama client, the
  cross-encoder scoring model) are abstract parameters.  `hybrid_search`
  catches every exception and returns `[]`, and `generate_answer` catches
  every exception and returns a `success=False` dictionary, so both are
  modelled as total functions.  The hit/miss statistics counters kept by
  `process_query` and `get_stats` are not modelled (no claim concerns them).
-/

/-! ### Character/string primitives (Python `str` operations) -/

/-- ASCII fragment of the Python regex class `\w`: letters, digits, `_`. -/
def isWordChar (c : Char) : Bool :=
  c.isAlphanum || c = '_'

/-- Python `str.strip()`: drop leading and trailing whitespace. -/
def stripChars (s : List Char) : List Char :=
  ((s.dropWhile Char.isWhitespace).reverse.dropWhile Char.isWhitespace).reverse

/-- Python `str.lower()` (ASCII fragment). -/
def lowerChars (s : List Char) : List Char :=
  s.map Char.toLower

/-- Does `pat` occur at the very front of `s`? -/
def beginsWith : List Char → List Char → Bool
  | [], _ => true
  | _ :: _, [] => false
  | p :: ps, c :: cs => p = c && beginsWith ps cs

/-- Python `pat in s`: plain substring occurrence. -/
def containsSub (pat : List Char) : List Char → Bool
  | [] => beginsWith pat []
  | c :: cs => beginsWith pat (c :: cs) || containsSub pat cs

/-- `pat` occurs at the front of `s` and the character following the match
(if any) is not a word character (the trailing `\b`). -/
def boundedAt (pat s : List Char) : Bool :=
  beginsWith pat s &&
    match s.drop pat.length with
    | [] => true
    | c :: _ => !isWordChar c

/-- Scan `s` for a word-bounded occurrence of `pat`; `prevW` records whether
the character just before the current position is a word character (the
leading `\b`). -/
def boundedSearchAux (pat : List Char) (prevW : Bool) : List Char → Bool
  | [] => !prevW && boundedAt pat []
  | c :: cs => (!prevW && boundedAt pat (c :: cs)) || boundedSearchAux pat (isWordChar c) cs

/-- Python `re.search(r'\b<pat>\b', s)` for a pattern made of word characters
and internal spaces (all patterns used by `QueryGuardrails` have this shape). -/
def boundedMatch (pat s : List Char) : Bool :=
  boundedSearchAux pat false s

/-- Python `str.split()`: split on whitespace runs, no empty words.
`acc` holds the current word reversed. -/
def splitWsAux : List Char → List Char → List (List Char)
  | [], acc => if acc = [] then [] else [acc.reverse]
  | c :: cs, acc =>
    if c.isWhitespace then
      if acc = [] then splitWsAux cs [] else acc.reverse :: splitWsAux cs []
    else splitWsAux cs (c :: acc)

def splitWs (s : List Char) : List (List Char) :=
  splitWsAux s []

/-- Python `sep.join(words)`. -/
def joinSep (sep : List Char) : List (List Char) → List Char
  | [] => []
  | [w] => w
  | w :: ws => w ++ sep ++ joinSep sep ws

/-! ### `src/services/guardrails.py` — `QueryGuardrails` -/

/-- The five harmful regex patterns, each an alternation of word-bounded
words (`self.harmfulPatterns`). -/
def harmfulPatterns : List (List String) :=
  [ ["hack", "crack", "break", "bypass", "exploit"],
    ["illegal", "unlawful", "criminal"],
    ["violence", "violent", "harm", "hurt", "kill"],
    ["drug", "weapon", "bomb", "terrorist"],
    ["porn", "sexual", "explicit"] ]

/-- `re.search` of one alternation pattern against a string. -/
def matchesAnyAlt (alts : List String) (s : List Char) : Bool :=
  alts.any fun w => boundedMatch w.data s

/-- Any harmful pattern matches (the rejection loop in `validate_query` and
the harmful-content loop in `validate_generated_answer`). -/
def harmfulMatch (s : List Char) : Bool :=
  harmfulPatterns.any fun p => matchesAnyAlt p s

/-- `self.offTopicPatterns`. -/
def offTopicPatterns : List String :=
  ["weather", "stock price", "news today", "current events", "sports score"]

/-- The count of matching off-topic patterns (`offTopicMatches`). -/
def offTopicCount (s : List Char) : Nat :=
  (offTopicPatterns.filter fun p => boundedMatch p.data s).length

/-- `self.stopWords`. -/
def stopWords : List String :=
  [ "the", "a", "an", "and", "or", "but", "in", "on", "at", "to", "for",
    "of", "with", "by", "is", "are", "was", "were", "be", "been", "being" ]

structure ValidationResult where
  isValid : Bool
  reason : String
deriving DecidableEq, Repr

/-- `QueryGuardrails.validate_query`. -/
def validate_query (query : String) : ValidationResult :=
  if stripChars query.data = [] then
    ⟨false, "Query cannot be empty"⟩
  else if (stripChars query.data).length < 3 then
    ⟨false, "Query too short. Please provide a more detailed question."⟩
  else if 500 < query.data.length then
    ⟨false, "Query too long. Please keep questions under 500 characters."⟩
  else
    let queryLower := lowerChars query.data
    if harmfulMatch queryLower then
      ⟨false, "Query contains inappropriate content. Please ask something else."⟩
    else if 0 < offTopicCount queryLower then
      ⟨false, "I can only answer questions about the uploaded documents. Please ask about the document content."⟩
    else
      ⟨true, "Query passed validation"⟩

/-- Interrogative words checked by `optimize_query`. -/
def questionWords : List String :=
  ["what", "how", "when", "where", "why", "who"]

/-- Body of `QueryGuardrails.optimize_query` up to the safety valve: the
computation of `optimizedQuery`. -/
def optimize_core (query : String) : List Char :=
  let cleanQuery := lowerChars (stripChars query.data)
  let cleanQuery2 := cleanQuery.map fun c =>
    if isWordChar c || c.isWhitespace || c = '?' then c else ' '
  let queryWords := splitWs cleanQuery2
  let optimizedWords :=
    if !(queryWords.any fun w => questionWords.any fun q => q.data == w) then
      queryWords.filter fun w =>
        !(stopWords.any fun sw => sw.data == w) && 2 < w.length
    else
      queryWords.filter fun w => 1 < w.length
  joinSep [' '] optimizedWords

/-- `QueryGuardrails.optimize_query`: the optimized form, unless the safety
valve `if len(optimizedQuery) < len(query) * 0.3: return query` fires. -/
def optimize_query (query : String) : String :=
  let optimizedQuery := optimize_core query
  if 10 * optimizedQuery.length < 3 * query.data.length then query
  else ⟨optimizedQuery⟩

/-- `QueryGuardrails.is_query_about_documents`. -/
def is_query_about_documents (query : String) : Bool :=
  let documentIndicators : List String :=
    [ "document", "pdf", "file", "paper", "report", "text", "content",
      "what does", "according to", "mentioned", "states", "says" ]
  let queryLower := lowerChars query.data
  documentIndicators.any fun ind => containsSub ind.data queryLower

/-! ### Session store (`RagRetrievalService.chatSessions`) -/

/-- One entry of a session history list
(`{"role": ..., "content": ..., "timestamp": ...}`). -/
structure ChatTurn where
  role : String
  content : String
  timestamp : String
deriving DecidableEq, Repr

/-- `self.chatSessions` is a Python dict; modelled as an insertion-ordered
association list with unique keys. -/
abbrev Sessions : Type :=
  List (String × List ChatTurn)

/-- Dict lookup `self.chatSessions[sid]` / membership test. -/
def lookupSession : Sessions → String → Option (List ChatTurn)
  | [], _ => none
  | (k, v) :: rest, sid => if k = sid then some v else lookupSession rest sid

/-- Dict assignment `self.chatSessions[sid] = h`: replace in place if the key
exists, append otherwise. -/
def putSession : Sessions → String → List ChatTurn → Sessions
  | [], sid, h => [(sid, h)]
  | (k, v) :: rest, sid, h =>
    if k = sid then (sid, h) :: rest else (k, v) :: putSession rest sid h

/-- `RagRetrievalService._update_chat_session`.  The two
`datetime.utcnow().isoformat()` calls are the explicit arguments `tsU`, `tsA`. -/
def update_chat_session (ss : Sessions) (sessionId userQuery assistantAnswer tsU tsA : String) :
    Sessions :=
  let history := (lookupSession ss sessionId).getD []
  let h2 := history ++
    [⟨"user", userQuery, tsU⟩, ⟨"assistant", assistantAnswer, tsA⟩]
  let h3 := if 20 < h2.length then h2.drop (h2.length - 20) else h2
  putSession ss sessionId h3

/-- `RagRetrievalService.get_chat_history`
(`self.chatSessions.get(sessionId, [])`). -/
def get_chat_history (ss : Sessions) (sessionId : String) : List ChatTurn :=
  (lookupSession ss sessionId).getD []

/-- Python `l[-n:]`: the last `n` elements. -/
def lastTurns (n : Nat) (l : List ChatTurn) : List ChatTurn :=
  l.drop (l.length - n)

/-- Iterate `_update_chat_session` over a list of (user, assistant) text pairs
for one session (timestamps are irrelevant to the session-bound property). -/
def appendAllTurns (sid : String) : List (String × String) → Sessions → Sessions
  | [], ss => ss
  | (u, a) :: rest, ss => appendAllTurns sid rest (update_chat_session ss sid u a "t" "t")

/-! ### `src/core/cache_manager.py` — `SimpleCacheManager` -/

/-- One entry of `self.cache`: the dict maps `key` to
`{"data": ..., "timestamp": ...}`; modelled as an insertion-ordered
association list with unique keys. -/
structure CEntry (α : Type) where
  key : String
  timestamp : Nat
  data : α
deriving DecidableEq, Repr

/-- `SimpleCacheManager._get_key`: md5 is collision-acceptable, so the key is
modelled as the hashed content string itself. -/
def getKey (query search_mode : String) : String :=
  ⟨lowerChars (stripChars query.data)⟩ ++ "_" ++ search_mode

/-- Dict membership/lookup on the cache list. -/
def lookupEntry (k : String) : List (CEntry α) → Option (CEntry α)
  | [] => none
  | e :: rest => if e.key = k then some e else lookupEntry k rest

/-- Dict assignment: replace in place if the key exists, append otherwise. -/
def putEntry (k : String) (ts : Nat) (d : α) : List (CEntry α) → List (CEntry α)
  | [] => [⟨k, ts, d⟩]
  | e :: rest => if e.key = k then ⟨k, ts, d⟩ :: rest else e :: putEntry k ts d rest

/-- `del self.cache[k]`: remove the (unique) entry with key `k`. -/
def eraseKey (k : String) : List (CEntry α) → List (CEntry α)
  | [] => []
  | e :: rest => if e.key = k then rest else e :: eraseKey k rest

/-- Fold of Python `min(keys, key=timestamp)`: keep the earlier entry on
ties, exactly as `min` keeps the first minimal element in iteration order. -/
def oldestGo (best : CEntry α) : List (CEntry α) → CEntry α
  | [] => best
  | e :: rest => if e.timestamp < best.timestamp then oldestGo e rest else oldestGo best rest

/-- `min(self.cache.keys(), key=lambda k: self.cache[k]["timestamp"])`;
`none` on an empty cache (where Python `min` would raise `ValueError` —
reachable only with `max_size = 0`). -/
def oldestKey : List (CEntry α) → Option String
  | [] => none
  | e :: rest => some (oldestGo e rest).key

/-- `SimpleCacheManager.get`, with `time.time()` passed as `now`.  Returns the
looked-up value and the possibly mutated store (expired entries are deleted
on access). -/
def cache_get (entries : List (CEntry α)) (ttl_seconds : Nat) (query search_mode : String)
    (now : Nat) : Option α × List (CEntry α) :=
  let key := getKey query search_mode
  match lookupEntry key entries with
  | none => (none, entries)
  | some e =>
    if now - e.timestamp < ttl_seconds then (some e.data, entries)
    else (none, eraseKey key entries)

/-- `SimpleCacheManager.set`, with `time.time()` passed as `now`. -/
def cache_set (entries : List (CEntry α)) (max_size : Nat) (query search_mode : String)
    (data : α) (now : Nat) : List (CEntry α) :=
  let entries1 :=
    if max_size ≤ entries.length then
      match oldestKey entries with
      | some k => eraseKey k entries
      | none => entries
    else entries
  putEntry (getKey query search_mode) now data entries1

/-- The keys of a cache, in insertion order. -/
def cacheKeys (entries : List (CEntry α)) : List String :=
  entries.map CEntry.key

/-- `key in self.cache`. -/
def hasKey (k : String) (entries : List (CEntry α)) : Bool :=
  (lookupEntry k entries).isSome

/-- Repeated `set` with distinct consecutive timestamps `t, t+1, ...`
(models successive `time.time()` readings). -/
def cache_setAll (max_size : Nat) : List (String × String × α) → Nat → List (CEntry α) →
    List (CEntry α)
  | [], _, c => c
  | (q, m, d) :: rest, t, c => cache_setAll max_size rest (t + 1) (cache_set c max_size q m d t)

/-- The entries that `cache_setAll` appends when nothing is evicted or
replaced: derived keys with consecutive timestamps. -/
def entriesOf : List (String × String × α) → Nat → List (CEntry α)
  | [], _ => []
  | (q, m, d) :: rest, t => ⟨getKey q m, t, d⟩ :: entriesOf rest (t + 1)

/-! ### Retrieved passages and `src/core/reranker.py` — `SimpleReranker` -/

/-- One retrieval hit, as built by `ElasticsearchRagClient.hybrid_search`;
`rerank_score` is the key that `SimpleReranker.rerank_results` may attach
afterwards (`none` = key absent). -/
structure Passage where
  score : Int
  chunkId : String
  content : String
  documentTitle : String
  documentUrl : String
  fileName : String
  chunkIndex : Nat
  rerank_score : Option Int := none
deriving DecidableEq, Repr

/-- Stable insertion step of a descending sort by `key` (Python `sorted`
with `reverse=True` is stable: equal keys keep their original order). -/
def insertByDesc (key : α → Int) (x : α) : List α → List α
  | [] => [x]
  | y :: ys => if key x < key y then y :: insertByDesc key x ys else x :: y :: ys

/-- Stable descending sort by `key`
(`sorted(l, key=key, reverse=True)`). -/
def sortByDesc (key : α → Int) : List α → List α
  | [] => []
  | x :: xs => insertByDesc key x (sortByDesc key xs)

/-- The loop `result["rerank_score"] = float(scores[i])`. -/
def attachScores : List Passage → List Int → List Passage
  | [], _ => []
  | p :: ps, [] => p :: ps
  | p :: ps, s :: ss => { p with rerank_score := some s } :: attachScores ps ss

/-- `SimpleReranker.rerank_results`.  `enabled` is `self.enabled` (whether the
cross-encoder loaded); `predict` is the external `self.model.predict`, whose
`.error` outcome models the exception caught at the bottom of the method.  A
score list shorter than `results` would raise `IndexError` inside the loop and
land in the same `except` branch, hence the length guard. -/
def rerank_results (enabled : Bool) (predict : List (String × String) → Except String (List Int))
    (query : String) (results : List Passage) (top_k : Nat) : List Passage :=
  if !enabled || results.length ≤ 1 then results.take top_k
  else
    match predict (results.map fun r => (query, r.content)) with
    | .error _ => results.take top_k
    | .ok scores =>
      if results.length ≤ scores.length then
        (sortByDesc (fun p => p.rerank_score.getD 0) (attachScores results scores)).take top_k
      else results.take top_k

/-! ### `src/services/retrieval_service.py` — `RagRetrievalService` -/

/-- One citation, as built by `OllamaLlmClient._extract_sources`. -/
structure SourceInfo where
  title : String
  filename : String
  url : String
  snippet : String
deriving DecidableEq, Repr

/-- The dictionary returned by `OllamaLlmClient.generate_answer`.  The client
catches every exception, so the call is total; the field defaults model the
`.get(..., default)` reads done by `process_query` on the failure-shaped
dictionaries (which lack `sources` and `contextUsed`). -/
structure GenResult where
  success : Bool
  answer : String
  sources : List SourceInfo := []
  contextUsed : Bool := false
  error : Option String := none
deriving DecidableEq, Repr

/-- The pipeline result dictionary of `RagRetrievalService.process_query`.
`Option` fields model keys that some of the result dictionaries omit
(`none` = key absent). -/
structure PResult where
  success : Bool
  answer : String
  sources : List SourceInfo
  error : Option String := none
  contextUsed : Option Bool := none
  searchMode : Option String := none
  retrievedCount : Option Nat := none
  sessionId : Option String := none
  cached : Option Bool := none
  reranked : Option Bool := none
deriving DecidableEq, Repr

/-- `QueryGuardrails.validate_generated_answer`. -/
def validate_generated_answer (generatedAnswer : String) (retrievedContext : List Passage) :
    String :=
  if stripChars generatedAnswer.data = [] then
    "I apologize, but I couldn\x27t generate a proper response. Please try rephrasing your question."
  else if retrievedContext = [] &&
      !containsSub "I don\x27t know".data generatedAnswer.data &&
      !containsSub "don\x27t have".data generatedAnswer.data then
    "I don\x27t have enough information in the available documents to answer that question."
  else
    let answerLower := lowerChars generatedAnswer.data
    if harmfulMatch answerLower then
      "I cannot provide that information. Please ask about something else."
    else if !(retrievedContext = []) && !containsSub "document".data answerLower &&
        !containsSub "source".data answerLower then
      let contextSources := (retrievedContext.take 2).map Passage.documentTitle
      generatedAnswer ++ " (Based on: " ++ ⟨joinSep ", ".data (contextSources.map String.data)⟩ ++ ")"
    else
      generatedAnswer

/-- `RagRetrievalService._enhance_query_with_context`.  `list(set(...))`
iterates a Python set in an unspecified, hash-dependent order; the model
de-duplicates keeping first occurrences (one admissible order). -/
def enhance_query_with_context (query : String) (chatHistory : List ChatTurn) : String :=
  if chatHistory = [] then query
  else
    let recentMessages := chatHistory.drop (chatHistory.length - 6)
    let contextTerms :=
      (recentMessages.filter fun m => m.role = "user").flatMap fun m =>
        (splitWs m.content.data).filter fun w => 3 < w.length
    if !(contextTerms = []) then
      let uniqueContextTerms := (contextTerms.dedup).take 3
      query ++ " " ++ ⟨joinSep [' '] uniqueContextTerms⟩
    else query

/-- `RagRetrievalService._simple_rerank_results`. -/
def simple_rerank_results (results : List Passage) (_query : String) : List Passage :=
  sortByDesc Passage.score results

/-- The abstract external collaborators injected into the pipeline:
`self.elasticClient.hybrid_search` (total: it catches every exception and
returns `[]`), `self.llmClient.generate_answer` (total: it catches every
exception and returns a failure dictionary), and the re-ranker state. -/
structure Deps where
  search : String → Nat → String → List Passage
  generate : String → List Passage → List ChatTurn → GenResult
  rerankerEnabled : Bool
  predict : List (String × String) → Except String (List Int)

/-- The mutable state of one `RagRetrievalService` instance. -/
structure SState where
  cache : List (CEntry PResult)
  sessions : Sessions
deriving DecidableEq

/-- `SimpleCacheManager()` defaults used by the service. -/
def cacheMaxSize : Nat := 100

def cacheTtl : Nat := 300

/-- `RagRetrievalService.process_query`.  `now` models the `time.time()`
readings of this request, `tsU`/`tsA` the two `datetime.utcnow()` readings of
`_update_chat_session`.  All callees are total, so the final catch-all
`except` branch of the Python method is unreachable in the model. -/
def process_query (d : Deps) (st : SState) (userQuery sessionId searchMode : String)
    (maxResults : Nat) (enableReranking : Bool) (now : Nat) (tsU tsA : String) :
    PResult × SState :=
  if stripChars userQuery.data = [] then
    ({ success := false, error := some "Empty query provided",
       answer := "Please provide a valid question.", sources := [] }, st)
  else
    match cache_get st.cache cacheTtl userQuery searchMode now with
    | (some cached_result, cache1) => (cached_result, { st with cache := cache1 })
    | (none, cache1) =>
      let st1 : SState := { st with cache := cache1 }
      let validationResult := validate_query userQuery
      if !validationResult.isValid then
        ({ success := false, error := some validationResult.reason,
           answer := "I cannot process this query due to content guidelines.",
           sources := [] }, st1)
      else
        let optimizedQuery := optimize_query userQuery
        let chatHistory := get_chat_history st1.sessions sessionId
        let contextualQuery := enhance_query_with_context optimizedQuery chatHistory
        let retrievalResults :=
          d.search contextualQuery (if enableReranking then maxResults * 3 else maxResults)
            searchMode
        if retrievalResults = [] then
          let result : PResult :=
            { success := true,
              answer := "I couldn\x27t find any relevant information to answer your question. Please try rephrasing or ask about something else.",
              sources := [], contextUsed := some false, searchMode := some searchMode,
              retrievedCount := some 0, sessionId := some sessionId }
          (result,
           { st1 with cache := cache_set st1.cache cacheMaxSize userQuery searchMode result now })
        else
          let rankedResults :=
            if enableReranking && decide (1 < retrievalResults.length) then
              rerank_results d.rerankerEnabled d.predict contextualQuery retrievalResults
                maxResults
            else
              (simple_rerank_results retrievalResults contextualQuery).take maxResults
          let generationResult := d.generate userQuery rankedResults chatHistory
          let sessions2 :=
            if generationResult.success then
              update_chat_session st1.sessions sessionId userQuery generationResult.answer tsU tsA
            else st1.sessions
          let finalAnswer :=
            if generationResult.success then
              validate_generated_answer generationResult.answer rankedResults
            else generationResult.answer
          let result : PResult :=
            { success := generationResult.success,
              answer := finalAnswer,
              sources := generationResult.sources,
              contextUsed := some generationResult.contextUsed,
              searchMode := some searchMode,
              retrievedCount := some rankedResults.length,
              sessionId := some sessionId,
              cached := some false,
              reranked := some (enableReranking && decide (1 < retrievalResults.length)) }
          let cache2 :=
            if result.success then cache_set st1.cache cacheMaxSize userQuery searchMode result now
            else st1.cache
          (result, { cache := cache2, sessions := sessions2 })

/-! ### Helper lemmas about the cache association list -/

theorem lookupEntry_putEntry_self {α : Type} (k : String) (ts : Nat) (d : α) :
    ∀ c : List (CEntry α), lookupEntry k (putEntry k ts d c) = some ⟨k, ts, d⟩ := by
  intro c
  induction c with
  | nil => simp [putEntry, lookupEntry]
  | cons e rest ih =>
    by_cases h : e.key = k
    · simp [putEntry, h, lookupEntry]
    · simp [putEntry, h, lookupEntry, ih]

theorem lookupEntry_putEntry_ne {α : Type} (k k0 : String) (ts : Nat) (d : α)
    (hne : k0 ≠ k) :
    ∀ c : List (CEntry α), lookupEntry k0 (putEntry k ts d c) = lookupEntry k0 c := by
  intro c
  induction c with
  | nil => simp [putEntry, lookupEntry, Ne.symm hne]
  | cons e rest ih =>
    by_cases h : e.key = k
    · simp [putEntry, h, lookupEntry, hne, Ne.symm hne]
    · by_cases h0 : e.key = k0
      · simp [putEntry, h, lookupEntry, h0, hne, Ne.symm hne]
      · simp [putEntry, h, lookupEntry, h0, ih]

theorem lookupEntry_eraseKey_ne {α : Type} (k k0 : String) (hne : k0 ≠ k) :
    ∀ c : List (CEntry α), lookupEntry k0 (eraseKey k c) = lookupEntry k0 c := by
  intro c
  induction c with
  | nil => simp [eraseKey, lookupEntry]
  | cons e rest ih =>
    by_cases h : e.key = k
    · have h0 : e.key ≠ k0 := by rw [h]; exact Ne.symm hne
      simp [eraseKey, h, lookupEntry, h0, Ne.symm hne]
    · by_cases h0 : e.key = k0
      · simp [eraseKey, h, lookupEntry, h0, hne, Ne.symm hne]
      · simp [eraseKey, h, lookupEntry, h0, ih]

theorem lookupEntry_none_of_not_mem {α : Type} (k : String) :
    ∀ c : List (CEntry α), k ∉ cacheKeys c → lookupEntry k c = none := by
  intro c
  induction c with
  | nil => intro _; rfl
  | cons e rest ih =>
    intro hmem
    simp [cacheKeys] at hmem
    simp [lookupEntry, Ne.symm hmem.1, ih (by simpa [cacheKeys] using hmem.2)]

theorem mem_of_lookupEntry_isSome {α : Type} (k : String) :
    ∀ c : List (CEntry α), (lookupEntry k c).isSome = true → k ∈ cacheKeys c := by
  intro c
  induction c with
  | nil => intro h; simp [lookupEntry] at h
  | cons e rest ih =>
    intro h
    by_cases hk : e.key = k
    · simp [cacheKeys, hk]
    · simp [lookupEntry, hk] at h
      simp [cacheKeys]
      exact Or.inr (by simpa [cacheKeys] using ih h)

theorem lookupEntry_isSome_of_mem {α : Type} (k : String) :
    ∀ c : List (CEntry α), k ∈ cacheKeys c → (lookupEntry k c).isSome = true := by
  intro c
  induction c with
  | nil => intro h; simp [cacheKeys] at h
  | cons e rest ih =>
    intro h
    by_cases hk : e.key = k
    · simp [lookupEntry, hk]
    · simp [cacheKeys, Ne.symm hk] at h
      have := ih (by simpa [cacheKeys] using h)
      simp [lookupEntry, hk, this]

theorem lookupEntry_eraseKey_self {α : Type} (k : String) :
    ∀ c : List (CEntry α), (cacheKeys c).Nodup → lookupEntry k (eraseKey k c) = none := by
  intro c
  induction c with
  | nil => intro _; rfl
  | cons e rest ih =>
    intro hnd
    simp [cacheKeys] at hnd
    by_cases h : e.key = k
    · simp [eraseKey, h]
      apply lookupEntry_none_of_not_mem
      rw [← h]
      simpa [cacheKeys] using hnd.1
    · simp [eraseKey, h, lookupEntry, h, ih (by simpa [cacheKeys] using hnd.2)]

theorem cacheKeys_eraseKey_sublist {α : Type} (k : String) :
    ∀ c : List (CEntry α), (cacheKeys (eraseKey k c)).Sublist (cacheKeys c) := by
  intro c
  induction c with
  | nil => simp [eraseKey, cacheKeys]
  | cons e rest ih =>
    by_cases h : e.key = k
    · simp [eraseKey, h, cacheKeys]
    · simpa [eraseKey, h, cacheKeys] using List.Sublist.cons₂ e.key ih

theorem nodup_eraseKey {α : Type} (k : String) (c : List (CEntry α))
    (h : (cacheKeys c).Nodup) : (cacheKeys (eraseKey k c)).Nodup :=
  (cacheKeys_eraseKey_sublist k c).nodup h

theorem eraseKey_length_of_mem {α : Type} (k : String) :
    ∀ c : List (CEntry α), k ∈ cacheKeys c → (eraseKey k c).length + 1 = c.length := by
  intro c
  induction c with
  | nil => intro h; simp [cacheKeys] at h
  | cons e rest ih =>
    intro h
    by_cases hk : e.key = k
    · simp [eraseKey, hk]
    · simp [cacheKeys, Ne.symm hk] at h
      simp [eraseKey, hk]
      exact ih (by simpa [cacheKeys] using h)

theorem putEntry_length_of_mem {α : Type} (k : String) (ts : Nat) (d : α) :
    ∀ c : List (CEntry α), k ∈ cacheKeys c → (putEntry k ts d c).length = c.length := by
  intro c
  induction c with
  | nil => intro h; simp [cacheKeys] at h
  | cons e rest ih =>
    intro h
    by_cases hk : e.key = k
    · simp [putEntry, hk]
    · simp [cacheKeys, Ne.symm hk] at h
      simp [putEntry, hk]
      exact ih (by simpa [cacheKeys] using h)

theorem putEntry_append_of_fresh {α : Type} (k : String) (ts : Nat) (d : α) :
    ∀ c : List (CEntry α), k ∉ cacheKeys c → putEntry k ts d c = c ++ [⟨k, ts, d⟩] := by
  intro c
  induction c with
  | nil => intro _; rfl
  | cons e rest ih =>
    intro h
    simp [cacheKeys] at h
    simp [putEntry, Ne.symm h.1, ih (by simpa [cacheKeys] using h.2)]

theorem cacheKeys_putEntry_of_mem {α : Type} (k : String) (ts : Nat) (d : α) :
    ∀ c : List (CEntry α), k ∈ cacheKeys c → cacheKeys (putEntry k ts d c) = cacheKeys c := by
  intro c
  induction c with
  | nil => intro h; simp [cacheKeys] at h
  | cons e rest ih =>
    intro h
    by_cases hk : e.key = k
    · simp [putEntry, hk, cacheKeys]
    · simp [cacheKeys, Ne.symm hk] at h
      simp [putEntry, hk, cacheKeys]
      exact ih (by simpa [cacheKeys] using h)

theorem nodup_putEntry {α : Type} (k : String) (ts : Nat) (d : α) (c : List (CEntry α))
    (h : (cacheKeys c).Nodup) : (cacheKeys (putEntry k ts d c)).Nodup := by
  by_cases hmem : k ∈ cacheKeys c
  · rw [cacheKeys_putEntry_of_mem k ts d c hmem]; exact h
  · rw [putEntry_append_of_fresh k ts d c hmem]
    simp only [cacheKeys, List.map_append]
    rw [List.nodup_append]
    refine ⟨h, by simp, ?_⟩
    intro x hx hy
    simp at hy
    subst hy
    exact hmem hx

theorem nodup_cache_set {α : Type} (c : List (CEntry α)) (ms : Nat) (q m : String)
    (d : α) (t : Nat) (h : (cacheKeys c).Nodup) :
    (cacheKeys (cache_set c ms q m d t)).Nodup := by
  unfold cache_set
  by_cases hfull : ms ≤ c.length
  · simp only [hfull, if_true]
    cases hk : oldestKey c with
    | none => exact nodup_putEntry _ _ _ _ h
    | some k0 => exact nodup_putEntry _ _ _ _ (nodup_eraseKey k0 c h)
  · simp only [hfull, if_false]
    exact nodup_putEntry _ _ _ _ h

/-- C4: `store` then `lookup` of the same `(query, mode)` pair within the TTL
returns exactly the stored value (and leaves the store untouched); a lookup
at or after the TTL returns `none` and removes the expired entry. -/
theorem cache_store_then_lookup {α : Type} (c : List (CEntry α)) (max_size ttl : Nat)
    (q m : String) (d : α) (tset tget : Nat) (hnd : (cacheKeys c).Nodup) :
    (tget - tset < ttl →
      cache_get (cache_set c max_size q m d tset) ttl q m tget
        = (some d, cache_set c max_size q m d tset))
    ∧ (ttl ≤ tget - tset →
      (cache_get (cache_set c max_size q m d tset) ttl q m tget).1 = none
      ∧ hasKey (getKey q m) (cache_get (cache_set c max_size q m d tset) ttl q m tget).2
          = false) := by
  have hl : lookupEntry (getKey q m) (cache_set c max_size q m d tset)
      = some ⟨getKey q m, tset, d⟩ := by
    unfold cache_set
    exact lookupEntry_putEntry_self (getKey q m) tset d _
  constructor
  · intro hin
    simp [cache_get, hl, hin]
  · intro hout
    have hnlt : ¬ (tget - tset < ttl) := not_lt.mpr hout
    have hnds : (cacheKeys (cache_set c max_size q m d tset)).Nodup :=
      nodup_cache_set c max_size q m d tset hnd
    constructor
    · simp [cache_get, hl, hnlt]
    · simp only [cache_get, hl, hnlt, if_false]
      simp only [hasKey]
      rw [lookupEntry_eraseKey_self (getKey q m) _ hnds]
      rfl

/-- Witness for C4 at a concrete input: store at time 0, hit at time 10,
expire at time 400 (TTL 300). -/
theorem cache_store_then_lookup_witness :
    (cache_get (cache_set ([] : List (CEntry Nat)) 100 "abc" "h" 7 0) 300 "abc" "h" 10
      = (some 7, cache_set [] 100 "abc" "h" 7 0))
    ∧ ((cache_get (cache_set ([] : List (CEntry Nat)) 100 "abc" "h" 7 0) 300 "abc" "h" 400).1
        = none
      ∧ hasKey (getKey "abc" "h")
          (cache_get (cache_set ([] : List (CEntry Nat)) 100 "abc" "h" 7 0) 300 "abc" "h" 400).2
        = false) :=
  ⟨(cache_store_then_lookup [] 100 300 "abc" "h" 7 0 10 (by decide)).1 (by decide),
   (cache_store_then_lookup [] 100 300 "abc" "h" 7 0 400 (by decide)).2 (by decide)⟩

/-! ### Helper lemmas for the capacity/eviction behaviour -/

theorem oldestGo_eq_self {α : Type} (e : CEntry α) :
    ∀ l : List (CEntry α), (∀ x ∈ l, ¬ x.timestamp < e.timestamp) → oldestGo e l = e := by
  intro l
  induction l with
  | nil => intro _; rfl
  | cons x rest ih =>
    intro h
    have hx : ¬ x.timestamp < e.timestamp := h x (by simp)
    simp [oldestGo, hx]
    exact ih fun y hy => h y (by simp [hy])

theorem entriesOf_timestamp_ge {α : Type} :
    ∀ (items : List (String × String × α)) (t : Nat) (e : CEntry α),
      e ∈ entriesOf items t → t ≤ e.timestamp := by
  intro items
  induction items with
  | nil => intro t e h; simp [entriesOf] at h
  | cons it rest ih =>
    intro t e h
    obtain ⟨q, m, d⟩ := it
    simp [entriesOf] at h
    rcases h with h | h
    · simp [h]
    · have := ih (t + 1) e h
      omega

theorem entriesOf_length {α : Type} :
    ∀ (items : List (String × String × α)) (t : Nat),
      (entriesOf items t).length = items.length := by
  intro items
  induction items with
  | nil => intro t; rfl
  | cons it rest ih =>
    intro t
    obtain ⟨q, m, d⟩ := it
    simp [entriesOf, ih]

theorem cacheKeys_entriesOf {α : Type} :
    ∀ (items : List (String × String × α)) (t : Nat),
      cacheKeys (entriesOf items t) = items.map fun it => getKey it.1 it.2.1 := by
  intro items
  induction items with
  | nil => intro t; rfl
  | cons it rest ih =>
    intro t
    obtain ⟨q, m, d⟩ := it
    simp [entriesOf, cacheKeys] at ih ⊢
    exact ih (t + 1)

theorem cache_setAll_append {α : Type} (ms : Nat) :
    ∀ (xs ys : List (String × String × α)) (t : Nat) (c : List (CEntry α)),
      cache_setAll ms (xs ++ ys) t c
        = cache_setAll ms ys (t + xs.length) (cache_setAll ms xs t c) := by
  intro xs
  induction xs with
  | nil => intro ys t c; simp [cache_setAll]
  | cons x rest ih =>
    intro ys t c
    obtain ⟨q, m, d⟩ := x
    simp only [List.cons_append, cache_setAll]
    rw [show rest.append ys = rest ++ ys from rfl, ih]
    congr 1
    simp
    omega

theorem cache_setAll_fresh {α : Type} (ms : Nat) :
    ∀ (items : List (String × String × α)) (t : Nat) (c : List (CEntry α)),
      c.length + items.length ≤ ms →
      (cacheKeys c ++ items.map fun it => getKey it.1 it.2.1).Nodup →
      cache_setAll ms items t c = c ++ entriesOf items t := by
  intro items
  induction items with
  | nil => intro t c _ _; simp [cache_setAll, entriesOf]
  | cons it rest ih =>
    intro t c hlen hnd
    obtain ⟨q, m, d⟩ := it
    have hlt : ¬ ms ≤ c.length := by simp at hlen ⊢; omega
    have hfresh : getKey q m ∉ cacheKeys c := by
      rw [List.nodup_append] at hnd
      intro hmem
      exact hnd.2.2 hmem (by simp)
    have hset : cache_set c ms q m d t = c ++ [⟨getKey q m, t, d⟩] := by
      unfold cache_set
      simp only [hlt, if_false]
      exact putEntry_append_of_fresh _ _ _ _ hfresh
    simp only [cache_setAll, hset]
    have h2 : cache_setAll ms rest (t + 1) (c ++ [(⟨getKey q m, t, d⟩ : CEntry α)])
        = (c ++ [(⟨getKey q m, t, d⟩ : CEntry α)]) ++ entriesOf rest (t + 1) := by
      apply ih
      · simp at hlen ⊢
        omega
      · simp only [cacheKeys, List.map_append, List.map_cons, List.map_nil] at hnd ⊢
        simpa [List.append_assoc] using hnd
    rw [h2]
    simp [entriesOf]

/-- C5: starting from an empty cache of capacity `ms ≥ 1`, inserting `ms + 1`
entries with pairwise distinct derived keys at strictly increasing timestamps
`0, 1, ...` leaves exactly `ms` entries; the absent key is the first inserted
(oldest timestamp) and every later key is present. -/
theorem cache_capacity_evicts_oldest {α : Type} (ms : Nat)
    (first : String × String × α) (rest : List (String × String × α))
    (hms : 1 ≤ ms) (hlen : rest.length = ms)
    (hnd : ((first :: rest).map fun it => getKey it.1 it.2.1).Nodup) :
    (cache_setAll ms (first :: rest) 0 []).length = ms
    ∧ hasKey (getKey first.1 first.2.1) (cache_setAll ms (first :: rest) 0 []) = false
    ∧ ∀ it ∈ rest, hasKey (getKey it.1 it.2.1) (cache_setAll ms (first :: rest) 0 []) = true := by
  obtain ⟨mid, last, rfl⟩ : ∃ mid last, rest = mid ++ [last] := by
    rcases List.eq_nil_or_concat rest with h | ⟨L, b, h⟩
    · rw [h] at hlen
      simp at hlen
      omega
    · exact ⟨L, b, by simpa [List.concat_eq_append] using h⟩
  obtain ⟨fq, fm, fd⟩ := first
  obtain ⟨lq, lm, ld⟩ := last
  have hmid : mid.length + 1 = ms := by simpa using hlen
  have hndk : (getKey fq fm ∉ (mid.map fun it => getKey it.1 it.2.1) ++ [getKey lq lm])
      ∧ ((mid.map fun it => getKey it.1 it.2.1) ++ [getKey lq lm]).Nodup := by
    have := hnd
    simp only [List.map_cons, List.map_append, List.map_singleton, List.nodup_cons] at this
    exact this
  have hdisj : getKey lq lm ∉ mid.map fun it => getKey it.1 it.2.1 := by
    have h2 := hndk.2
    rw [List.nodup_append] at h2
    intro hmem
    exact h2.2.2 hmem (by simp)
  have happ : ((fq, fm, fd) :: (mid ++ [(lq, lm, ld)]))
      = ((fq, fm, fd) :: mid) ++ [(lq, lm, ld)] := by simp
  rw [happ, cache_setAll_append]
  have hinner : cache_setAll ms ((fq, fm, fd) :: mid) 0 []
      = entriesOf ((fq, fm, fd) :: mid) 0 := by
    have h3 := cache_setAll_fresh ms ((fq, fm, fd) :: mid) 0 []
      (by simp; omega)
      (by
        simp only [cacheKeys, List.map_nil, List.nil_append, List.map_cons, List.nodup_cons]
        constructor
        · intro hmem
          exact hndk.1 (List.mem_append_left _ hmem)
        · exact (List.sublist_append_left _ _).nodup hndk.2)
    simpa using h3
  rw [hinner]
  simp only [cache_setAll]
  have hT : (0 + ((fq, fm, fd) :: mid).length) = mid.length + 1 := by simp
  have hfull : ms ≤ (entriesOf ((fq, fm, fd) :: mid) 0).length := by
    rw [entriesOf_length]
    simp
    omega
  have hold : oldestKey (entriesOf ((fq, fm, fd) :: mid) 0) = some (getKey fq fm) := by
    show oldestKey (⟨getKey fq fm, 0, fd⟩ :: entriesOf mid 1) = some (getKey fq fm)
    simp only [oldestKey]
    rw [oldestGo_eq_self]
    intro x _
    simp
  have herase : eraseKey (getKey fq fm) (entriesOf ((fq, fm, fd) :: mid) 0)
      = entriesOf mid 1 := by
    show eraseKey (getKey fq fm) (⟨getKey fq fm, 0, fd⟩ :: entriesOf mid 1) = entriesOf mid 1
    simp [eraseKey]
  have hfresh2 : getKey lq lm ∉ cacheKeys (entriesOf mid 1) := by
    rw [cacheKeys_entriesOf]
    exact hdisj
  have hset : cache_set (entriesOf ((fq, fm, fd) :: mid) 0) ms lq lm ld
      (0 + ((fq, fm, fd) :: mid).length)
      = entriesOf mid 1 ++ [⟨getKey lq lm, 0 + ((fq, fm, fd) :: mid).length, ld⟩] := by
    unfold cache_set
    simp only [hfull, if_true, hold]
    rw [herase]
    exact putEntry_append_of_fresh _ _ _ _ hfresh2
  rw [hset]
  have hkeysfinal : cacheKeys
      (entriesOf mid 1 ++ [⟨getKey lq lm, 0 + ((fq, fm, fd) :: mid).length, ld⟩])
      = (mid.map fun it => getKey it.1 it.2.1) ++ [getKey lq lm] := by
    simp [cacheKeys, cacheKeys_entriesOf]
    exact cacheKeys_entriesOf mid 1
  refine ⟨?_, ?_, ?_⟩
  · simp [entriesOf_length]
    omega
  · simp only [hasKey]
    rw [lookupEntry_none_of_not_mem _ _ (by rw [hkeysfinal]; exact hndk.1)]
    rfl
  · intro it hit
    simp only [hasKey]
    apply lookupEntry_isSome_of_mem
    rw [hkeysfinal]
    rcases List.mem_append.mp hit with hmem | hmem
    · exact List.mem_append_left _ (List.mem_map_of_mem _ hmem)
    · simp at hmem
      subst hmem
      simp

/-- Witness for C5: capacity 2, three inserts with distinct keys; the first
key is evicted, the later two remain. -/
theorem cache_capacity_evicts_oldest_witness :
    (cache_setAll 2 [("a", "h", (0 : Nat)), ("b", "h", 1), ("c", "h", 2)] 0 []).length = 2
    ∧ hasKey (getKey "a" "h")
        (cache_setAll 2 [("a", "h", (0 : Nat)), ("b", "h", 1), ("c", "h", 2)] 0 []) = false
    ∧ ∀ it ∈ [("b", "h", (1 : Nat)), ("c", "h", 2)],
        hasKey (getKey it.1 it.2.1)
          (cache_setAll 2 [("a", "h", (0 : Nat)), ("b", "h", 1), ("c", "h", 2)] 0 []) = true :=
  cache_capacity_evicts_oldest 2 ("a", "h", 0) [("b", "h", 1), ("c", "h", 2)]
    (by decide) (by decide) (by decide)

theorem oldestGo_mem {α : Type} :
    ∀ (l : List (CEntry α)) (best : CEntry α), oldestGo best l = best ∨ oldestGo best l ∈ l := by
  intro l
  induction l with
  | nil => intro best; left; rfl
  | cons x rest ih =>
    intro best
    by_cases h : x.timestamp < best.timestamp
    · simp only [oldestGo, h, if_true]
      rcases ih x with h2 | h2
      · right; rw [h2]; simp
      · right; simp [h2]
    · simp only [oldestGo, h, if_false]
      rcases ih best with h2 | h2
      · left; exact h2
      · right; simp [h2]

theorem oldestKey_mem {α : Type} (c : List (CEntry α)) (k0 : String)
    (h : oldestKey c = some k0) : k0 ∈ cacheKeys c := by
  cases c with
  | nil => simp [oldestKey] at h
  | cons e rest =>
    simp only [oldestKey, Option.some_inj] at h
    rcases oldestGo_mem rest e with h2 | h2
    · rw [h2] at h
      simp [cacheKeys, ← h]
    · rw [← h]
      simp [cacheKeys]
      right
      exact ⟨_, h2, rfl⟩

/-- C10: a `set` on a cache already at capacity evicts the oldest entry even
when the written key is already present; the oldest (unrelated) entry
disappears, the written key remains, and the store shrinks by one. -/
theorem cache_overwrite_at_capacity_evicts {α : Type} (c : List (CEntry α)) (ms : Nat)
    (q m : String) (d : α) (now : Nat)
    (hnd : (cacheKeys c).Nodup) (hfull : ms ≤ c.length)
    (hpresent : hasKey (getKey q m) c = true)
    (k0 : String) (hold : oldestKey c = some k0) (hne : k0 ≠ getKey q m) :
    hasKey k0 (cache_set c ms q m d now) = false
    ∧ hasKey (getKey q m) (cache_set c ms q m d now) = true
    ∧ (cache_set c ms q m d now).length + 1 = c.length := by
  have hk0mem : k0 ∈ cacheKeys c := oldestKey_mem c k0 hold
  have hkmem : getKey q m ∈ cacheKeys c :=
    mem_of_lookupEntry_isSome _ c (by simpa [hasKey] using hpresent)
  have hstore : cache_set c ms q m d now = putEntry (getKey q m) now d (eraseKey k0 c) := by
    unfold cache_set
    simp only [hfull, if_true, hold]
  have hkmem2 : getKey q m ∈ cacheKeys (eraseKey k0 c) := by
    apply mem_of_lookupEntry_isSome
    rw [lookupEntry_eraseKey_ne k0 (getKey q m) (Ne.symm hne)]
    exact lookupEntry_isSome_of_mem _ c hkmem
  refine ⟨?_, ?_, ?_⟩
  · rw [hstore]
    simp only [hasKey]
    rw [lookupEntry_putEntry_ne (getKey q m) k0 now d hne,
      lookupEntry_eraseKey_self k0 c hnd]
    rfl
  · rw [hstore]
    simp only [hasKey]
    rw [lookupEntry_putEntry_self]
    rfl
  · rw [hstore]
    rw [putEntry_length_of_mem _ now d _ hkmem2]
    exact eraseKey_length_of_mem k0 c hk0mem

/-- Witness for C10: a two-entry cache at capacity 2; overwriting key
`b_h` evicts the unrelated oldest key `a_h` and shrinks the store to one. -/
theorem cache_overwrite_at_capacity_evicts_witness :
    hasKey "a_h" (cache_set [⟨"a_h", 0, (5 : Nat)⟩, ⟨"b_h", 1, 6⟩] 2 "b" "h" 7 2) = false
    ∧ hasKey (getKey "b" "h") (cache_set [⟨"a_h", 0, (5 : Nat)⟩, ⟨"b_h", 1, 6⟩] 2 "b" "h" 7 2) = true
    ∧ (cache_set [⟨"a_h", 0, (5 : Nat)⟩, ⟨"b_h", 1, 6⟩] 2 "b" "h" 7 2).length + 1
        = ([⟨"a_h", 0, (5 : Nat)⟩, ⟨"b_h", 1, 6⟩] : List (CEntry Nat)).length :=
  cache_overwrite_at_capacity_evicts [⟨"a_h", 0, 5⟩, ⟨"b_h", 1, 6⟩] 2 "b" "h" 7 2
    (by decide) (by decide) (by decide) "a_h" (by decide) (by decide)

/-- C6: for every non-empty query, `optimize_query` returns a non-empty
string, and either the result keeps at least 30% of the original length or it
is the original query unchanged (the safety valve). -/
theorem optimize_query_safety (q : String) (hq : q ≠ "") :
    optimize_query q ≠ ""
    ∧ (3 * q.length ≤ 10 * (optimize_query q).length ∨ optimize_query q = q) := by
  have hqlen : q.data.length ≠ 0 := by
    intro h
    apply hq
    have hdata : q.data = [] := List.length_eq_zero.mp h
    cases q with
    | mk l =>
      simp only at hdata
      rw [hdata]
  simp only [optimize_query]
  by_cases hcase : 10 * (optimize_core q).length < 3 * q.data.length
  · rw [if_pos hcase]
    exact ⟨hq, Or.inr rfl⟩
  · rw [if_neg hcase]
    constructor
    · intro hcontra
      have hopt : optimize_core q = [] := congrArg String.data hcontra
      rw [hopt] at hcase
      simp only [List.length_nil, Nat.mul_zero, Nat.not_lt, Nat.le_zero] at hcase
      omega
    · exact Or.inl (Nat.le_of_not_lt hcase)

/-- Witness for C6 at `"the"`: the naive optimization would be empty, so the
query is returned unchanged. -/
theorem optimize_query_safety_witness :
    optimize_query "the" ≠ ""
    ∧ (3 * String.length "the" ≤ 10 * (optimize_query "the").length
        ∨ optimize_query "the" = "the") :=
  optimize_query_safety "the" (by decide)

/-- C7: when re-ranking is unavailable or there is at most one candidate,
`rerank_results` returns the first `top_k` candidates unchanged in order; and
when the scoring call fails, it likewise returns the first `top_k` candidates
in the provider's original order (the failure never escapes). -/
theorem rerank_results_fallback (enabled : Bool)
    (predict : List (String × String) → Except String (List Int))
    (query : String) (results : List Passage) (top_k : Nat) :
    ((enabled = false ∨ results.length ≤ 1) →
      rerank_results enabled predict query results top_k = results.take top_k)
    ∧ (∀ e, predict (results.map fun r => (query, r.content)) = .error e →
      rerank_results enabled predict query results top_k = results.take top_k) := by
  constructor
  · intro h
    rcases h with h | h
    · simp [rerank_results, h]
    · simp [rerank_results, h]
  · intro e he
    by_cases hc : (!enabled || decide (results.length ≤ 1)) = true
    · simp [rerank_results, hc]
    · simp only [rerank_results, hc, Bool.false_eq_true, if_false]
      rw [he]

/-- Passages used by the re-rank fallback witness. -/
def wPassage1 : Passage :=
  ⟨1, "c1", "alpha", "T1", "u1", "f1", 0, none⟩

def wPassage2 : Passage :=
  ⟨2, "c2", "beta", "T2", "u2", "f2", 1, none⟩

/-- Witness for C7: disabled scorer, and a failing scorer, both return the
first `top_k` in provider order. -/
theorem rerank_results_fallback_witness :
    rerank_results false (fun _ => Except.error "down") "q" [wPassage1, wPassage2] 1
      = [wPassage1, wPassage2].take 1
    ∧ rerank_results true (fun _ => Except.error "down") "q" [wPassage1, wPassage2] 1
      = [wPassage1, wPassage2].take 1 :=
  ⟨(rerank_results_fallback false (fun _ => Except.error "down") "q" [wPassage1, wPassage2] 1).1
      (Or.inl rfl),
   (rerank_results_fallback true (fun _ => Except.error "down") "q" [wPassage1, wPassage2] 1).2
      "down" rfl⟩

/-! ### Session store lemmas -/

theorem lookupSession_putSession_self (sid : String) (h : List ChatTurn) :
    ∀ ss : Sessions, lookupSession (putSession ss sid h) sid = some h := by
  intro ss
  induction ss with
  | nil => simp [putSession, lookupSession]
  | cons p rest ih =>
    obtain ⟨k, v⟩ := p
    by_cases hk : k = sid
    · simp [putSession, hk, lookupSession]
    · simp [putSession, hk, lookupSession, ih]

theorem get_chat_history_update (ss : Sessions) (sid uq aa t1 t2 : String) :
    get_chat_history (update_chat_session ss sid uq aa t1 t2) sid
      = lastTurns 20
          (get_chat_history ss sid ++ [⟨"user", uq, t1⟩, ⟨"assistant", aa, t2⟩]) := by
  simp only [update_chat_session, get_chat_history, lastTurns]
  rw [lookupSession_putSession_self]
  simp only [Option.getD_some]
  by_cases hl :
    20 < ((lookupSession ss sid).getD []
      ++ [(⟨"user", uq, t1⟩ : ChatTurn), (⟨"assistant", aa, t2⟩ : ChatTurn)]).length
  · rw [if_pos hl]
  · rw [if_neg hl]
    rw [Nat.sub_eq_zero_of_le (Nat.le_of_not_lt hl), List.drop_zero]

theorem lastTurns_length (n : Nat) (l : List ChatTurn) :
    (lastTurns n l).length = min l.length n := by
  simp [lastTurns]
  omega

theorem appendAllTurns_length (sid : String) :
    ∀ (pairs : List (String × String)) (ss : Sessions),
      (get_chat_history ss sid).length ≤ 20 →
      (get_chat_history (appendAllTurns sid pairs ss) sid).length
        = min ((get_chat_history ss sid).length + 2 * pairs.length) 20 := by
  intro pairs
  induction pairs with
  | nil =>
    intro ss h
    simp [appendAllTurns]
    omega
  | cons p rest ih =>
    intro ss h
    obtain ⟨u, a⟩ := p
    simp only [appendAllTurns]
    have hlen2 : (get_chat_history (update_chat_session ss sid u a "t" "t") sid).length
        = min ((get_chat_history ss sid).length + 2) 20 := by
      rw [get_chat_history_update, lastTurns_length]
      simp
    rw [ih _ (by rw [hlen2]; omega), hlen2]
    simp only [List.length_cons]
    omega

/-- C8: one `_update_chat_session` call appends exactly a user turn then an
assistant turn and keeps only the most recent 20 turns; after `N` appends to
one session (from an empty store) the history length is `min (2 N) 20`; and
the history of an unknown session id is the empty list, never an error. -/
theorem session_history_bound :
    (∀ (ss : Sessions) (sid uq aa t1 t2 : String),
      get_chat_history (update_chat_session ss sid uq aa t1 t2) sid
        = lastTurns 20
            (get_chat_history ss sid ++ [⟨"user", uq, t1⟩, ⟨"assistant", aa, t2⟩]))
    ∧ (∀ (sid : String) (pairs : List (String × String)),
      (get_chat_history (appendAllTurns sid pairs []) sid).length
        = min (2 * pairs.length) 20)
    ∧ (∀ (ss : Sessions) (sid : String),
      lookupSession ss sid = none → get_chat_history ss sid = []) := by
  refine ⟨get_chat_history_update, ?_, ?_⟩
  · intro sid pairs
    have h := appendAllTurns_length sid pairs []
      (by simp [get_chat_history, lookupSession])
    simpa [get_chat_history, lookupSession] using h
  · intro ss sid h
    simp [get_chat_history, h]

/-- Witness for C8: the history of an unknown session id in an empty store is
the empty list. -/
theorem session_history_bound_witness : get_chat_history [] "unknown" = [] :=
  session_history_bound.2.2 [] "unknown" rfl

/-- C3 (amended): `validate_query` rejects every query that matches an
off-topic pattern — even when an on-topic document signal is present
(`is_query_about_documents` is never consulted by `validate_query`). -/
theorem offtopic_rejected_despite_document_signal (q : String)
    (hshort : 3 ≤ (stripChars q.data).length)
    (hlong : q.data.length ≤ 500)
    (hharm : harmfulMatch (lowerChars q.data) = false)
    (hoff : 0 < offTopicCount (lowerChars q.data))
    (_hdoc : is_query_about_documents q = true) :
    validate_query q
      = ⟨false, "I can only answer questions about the uploaded documents. Please ask about the document content."⟩ := by
  have hne : ¬ stripChars q.data = [] := by
    intro hh
    rw [hh] at hshort
    simp at hshort
  have hharmne : ¬ harmfulMatch (lowerChars q.data) = true := by simp [hharm]
  simp only [validate_query]
  rw [if_neg hne, if_neg (by omega), if_neg (by omega), if_neg hharmne, if_pos hoff]

/-- Counterexample for C3: a query that matches the off-topic pattern
`weather` and carries a document signal is nonetheless rejected. -/
theorem offtopic_despite_document_signal_counterexample :
    is_query_about_documents "what does the document say about weather?" = true
    ∧ (validate_query "what does the document say about weather?").isValid = false := by
  decide

/-- Witness for C3 (amended) at a concrete off-topic, document-signalling
query. -/
theorem offtopic_rejected_despite_document_signal_witness :
    validate_query "what does the document say about weather?"
      = ⟨false, "I can only answer questions about the uploaded documents. Please ask about the document content."⟩ :=
  offtopic_rejected_despite_document_signal "what does the document say about weather?"
    (by decide) (by decide) (by decide) (by decide) (by decide)

/-! ### Views of the orchestrator's intermediate values (steps 4-7 of
`process_query`), used to state theorems about the generation path. -/

/-- The contextual query of steps 3-4: optimization followed by
session-context enhancement. -/
def pipeline_contextual (st : SState) (q sid : String) : String :=
  enhance_query_with_context (optimize_query q) (get_chat_history st.sessions sid)

/-- The retrieval call of step 5, with the 3x overfetch when re-ranking is
enabled. -/
def pipeline_results (d : Deps) (st : SState) (q sid mode : String) (mr : Nat) (er : Bool) :
    List Passage :=
  d.search (pipeline_contextual st q sid) (if er then mr * 3 else mr) mode

/-- The ranked candidate list of step 6. -/
def pipeline_ranked (d : Deps) (st : SState) (q sid mode : String) (mr : Nat) (er : Bool) :
    List Passage :=
  if er && decide (1 < (pipeline_results d st q sid mode mr er).length) then
    rerank_results d.rerankerEnabled d.predict (pipeline_contextual st q sid)
      (pipeline_results d st q sid mode mr er) mr
  else
    (simple_rerank_results (pipeline_results d st q sid mode mr er)
      (pipeline_contextual st q sid)).take mr

/-- The generation call of step 7. -/
def pipeline_gen (d : Deps) (st : SState) (q sid mode : String) (mr : Nat) (er : Bool) :
    GenResult :=
  d.generate q (pipeline_ranked d st q sid mode mr er) (get_chat_history st.sessions sid)

/-- C1 (amended): on a cache hit, `process_query` returns the stored result
exactly as stored and leaves the service state unchanged, for every choice of
retrieval/generation collaborators `d` (so neither retrieval nor generation
is invoked).  The stored result keeps whatever `cached` flag it was stored
with — the hit path never re-flags it to `true`. -/
theorem process_query_cache_hit_returns_stored (d : Deps) (st : SState)
    (q sid mode : String) (mr : Nat) (er : Bool) (now : Nat) (t1 t2 : String) (r : PResult)
    (hq : ¬ stripChars q.data = [])
    (hhit : cache_get st.cache cacheTtl q mode now = (some r, st.cache)) :
    process_query d st q sid mode mr er now t1 t2 = (r, st) := by
  simp only [process_query]
  rw [if_neg hq, hhit]

/-- Passage returned by the demonstration retrieval collaborator. -/
def demoPassage : Passage :=
  { score := 1, chunkId := "c1", content := "quarterly revenue figures",
    documentTitle := "DocTitle", documentUrl := "u", fileName := "f.pdf", chunkIndex := 0 }

/-- Healthy collaborators: retrieval finds one passage, generation succeeds
with the bare answer `"Yes."`. -/
def demoDeps : Deps :=
  { search := fun _ _ _ => [demoPassage],
    generate := fun _ _ _ =>
      { success := true, answer := "Yes.", sources := [], contextUsed := true },
    rerankerEnabled := false,
    predict := fun _ => Except.error "na" }

/-- Dead collaborators: retrieval finds nothing and generation fails.  Used
for the second call of the cache-hit scenario: if the hit path consulted
them, the result would differ. -/
def demoDepsOffline : Deps :=
  { search := fun _ _ _ => [],
    generate := fun _ _ _ => { success := false, answer := "offline" },
    rerankerEnabled := false,
    predict := fun _ => Except.error "na" }

/-- Collaborators whose generation call reports failure after exhausting its
retries. -/
def demoDepsGenFail : Deps :=
  { search := fun _ _ _ => [demoPassage],
    generate := fun _ _ _ =>
      { success := false,
        answer := "I apologize, but I\x27m unable to generate an answer right now. Please try again.",
        error := some "Request timed out after 3 attempts" },
    rerankerEnabled := false,
    predict := fun _ => Except.error "na" }

/-- The service state after one successful `process_query` call on an empty
state (the first call of the repeated-query scenario). -/
def demoState1 : SState :=
  (process_query demoDeps ⟨[], []⟩ "what is in the report?" "s1" "hybrid" 5 true 0 "t1" "t2").2

/-- Counterexample for C1: the identical valid query re-issued within the TTL
is served from cache (the result equals the first call's result even though
retrieval and generation are dead), but its `cached` flag is `false`, not
`true`. -/
theorem cached_flag_never_true_counterexample :
    (process_query demoDepsOffline demoState1 "what is in the report?" "s1" "hybrid" 5 true 10
      "t3" "t4").1.cached = some false
    ∧ (process_query demoDepsOffline demoState1 "what is in the report?" "s1" "hybrid" 5 true 10
      "t3" "t4").1
      = (process_query demoDeps ⟨[], []⟩ "what is in the report?" "s1" "hybrid" 5 true 0
          "t1" "t2").1 := by
  decide

/-- Witness for C1 (amended): the concrete second call returns the stored
result and state unchanged. -/
theorem process_query_cache_hit_returns_stored_witness :
    process_query demoDepsOffline demoState1 "what is in the report?" "s1" "hybrid" 5 true 10
        "t3" "t4"
      = ((process_query demoDeps ⟨[], []⟩ "what is in the report?" "s1" "hybrid" 5 true 0
          "t1" "t2").1, demoState1) :=
  process_query_cache_hit_returns_stored demoDepsOffline demoState1 "what is in the report?"
    "s1" "hybrid" 5 true 10 "t3" "t4" _ (by decide) (by decide)

/-- C2 (amended): on the successful generation path, the session update
happens on the raw generator answer (step 8 precedes step 9): the assistant
turn appended stores `pipeline_gen ... .answer` as produced by the generator,
while the returned result carries the output-validated answer. -/
theorem session_update_stores_raw_answer (d : Deps) (st : SState) (q sid mode : String)
    (mr : Nat) (er : Bool) (now : Nat) (t1 t2 : String) (cache1 : List (CEntry PResult))
    (hq : ¬ stripChars q.data = [])
    (hmiss : cache_get st.cache cacheTtl q mode now = (none, cache1))
    (hvalid : (validate_query q).isValid = true)
    (hne : pipeline_results d st q sid mode mr er ≠ [])
    (hgen : (pipeline_gen d st q sid mode mr er).success = true) :
    (process_query d st q sid mode mr er now t1 t2).2.sessions
      = update_chat_session st.sessions sid q (pipeline_gen d st q sid mode mr er).answer t1 t2
    ∧ (process_query d st q sid mode mr er now t1 t2).1.answer
      = validate_generated_answer (pipeline_gen d st q sid mode mr er).answer
          (pipeline_ranked d st q sid mode mr er) := by
  simp only [pipeline_gen, pipeline_ranked, pipeline_results, pipeline_contextual] at hne hgen ⊢
  simp only [process_query]
  rw [if_neg hq, hmiss]
  simp only [hvalid, Bool.not_true, Bool.false_eq_true, if_false]
  rw [if_neg hne]
  simp only [hgen, if_true]
  exact ⟨trivial, trivial⟩

/-- Counterexample for C2: in a concrete successful run, the assistant turn
appended to the session is the raw answer `"Yes."`, while the returned
(output-validated) answer is `"Yes. (Based on: DocTitle)"` — the appended turn
does not equal the returned sanitized answer. -/
theorem session_raw_answer_counterexample :
    (get_chat_history (process_query demoDeps ⟨[], []⟩ "what is in the report?" "s1" "hybrid" 5
        true 0 "t1" "t2").2.sessions "s1").map ChatTurn.content
      = ["what is in the report?", "Yes."]
    ∧ (process_query demoDeps ⟨[], []⟩ "what is in the report?" "s1" "hybrid" 5 true 0
        "t1" "t2").1.answer = "Yes. (Based on: DocTitle)" := by
  decide

/-- Witness for C2 (amended) at the concrete successful run. -/
theorem session_update_stores_raw_answer_witness :
    (process_query demoDeps ⟨[], []⟩ "what is in the report?" "s1" "hybrid" 5 true 0
        "t1" "t2").2.sessions
      = update_chat_session [] "s1" "what is in the report?"
          (pipeline_gen demoDeps ⟨[], []⟩ "what is in the report?" "s1" "hybrid" 5 true).answer
          "t1" "t2"
    ∧ (process_query demoDeps ⟨[], []⟩ "what is in the report?" "s1" "hybrid" 5 true 0
        "t1" "t2").1.answer
      = validate_generated_answer
          (pipeline_gen demoDeps ⟨[], []⟩ "what is in the report?" "s1" "hybrid" 5 true).answer
          (pipeline_ranked demoDeps ⟨[], []⟩ "what is in the report?" "s1" "hybrid" 5 true) :=
  session_update_stores_raw_answer demoDeps ⟨[], []⟩ "what is in the report?" "s1" "hybrid"
    5 true 0 "t1" "t2" [] (by decide) (by decide) (by decide) (by decide) (by decide)

/-- C9: when the generation call reports failure on the generation path,
`process_query` leaves the session store unchanged — no user or assistant
turn is appended. -/
theorem generation_failure_preserves_sessions (d : Deps) (st : SState) (q sid mode : String)
    (mr : Nat) (er : Bool) (now : Nat) (t1 t2 : String) (cache1 : List (CEntry PResult))
    (hq : ¬ stripChars q.data = [])
    (hmiss : cache_get st.cache cacheTtl q mode now = (none, cache1))
    (hvalid : (validate_query q).isValid = true)
    (hne : pipeline_results d st q sid mode mr er ≠ [])
    (hgen : (pipeline_gen d st q sid mode mr er).success = false) :
    (process_query d st q sid mode mr er now t1 t2).2.sessions = st.sessions := by
  simp only [pipeline_gen, pipeline_ranked, pipeline_results, pipeline_contextual] at hne hgen
  simp only [process_query]
  rw [if_neg hq, hmiss]
  simp only [hvalid, Bool.not_true, Bool.false_eq_true, if_false]
  rw [if_neg hne]
  simp only [hgen, Bool.false_eq_true, if_false]

/-- Witness for C9: a concrete run whose generation fails appends nothing to
the (empty) session store. -/
theorem generation_failure_preserves_sessions_witness :
    (process_query demoDepsGenFail ⟨[], []⟩ "what is in the report?" "s1" "hybrid" 5 true 0
      "t1" "t2").2.sessions = [] :=
  generation_failure_preserves_sessions demoDepsGenFail ⟨[], []⟩ "what is in the report?" "s1"
    "hybrid" 5 true 0 "t1" "t2" [] (by decide) (by decide) (by decide) (by decide) (by decide)
